import Mathlib

/-!
Verification of the prefix-preserving IP anonymization plugin
(`src/ip_anonymize.py` and its test harness `src/test/test_ip_anonymize.py`).

The Python source is shallowly embedded: 32-bit words are `Nat` with
explicit masking, the fallible codec returns `Option`, the external
scrambling primitive is an explicit function parameter, and the record
transformer is a pure function over association-list records.
-/

namespace IpAnon

/-! Section: ScrambleAlgo (ip_anonymize.py, lines 38-46)

An enum of the scrambling routines offered by the shared library. -/

namespace ScrambleAlgo

def SCRAMBLE_MD5 : Nat := 0x01

def SCRAMBLE_BLOWFISH : Nat := 0x02

def SCRAMBLE_AES : Nat := 0x03

def SCRAMBLE_SHA1 : Nat := 0x04

end ScrambleAlgo

/-! Section: the address codec

`ip2long` (lines 48-60) is `struct.unpack( "!L", socket.inet_aton(ip_str))[0]`.
`socket.inet_aton` is the C library routine `inet_aton`, whose documented
behaviour (POSIX "numbers-and-dots" notation, as implemented in glibc and
referenced by the Python documentation) is modelled here: one to four
components separated by dots, each component a C-style numeral (leading
`0x`/`0X` means hexadecimal, a leading `0` means octal, otherwise decimal);
with fewer than four components the last component fills the remaining
bytes.  The accepted value is the big-endian word, which is exactly what
`struct.unpack( "!L", ...)` recovers from the four network-order bytes.
(The trailing-whitespace tolerance of some C libraries is not modelled;
no claim depends on whitespace.) -/

/-- One step of the C-style numeral scanner used by `inet_aton`:
consume digits of the given base (8, 10 or 16; base 16 also consumes
hexadecimal letters), accumulating the value and rejecting accumulations
beyond `0xFFFFFFFF`; a character that is not a digit of the base
terminates the numeral, except that the scan in base 8 stops in front of
the digits `8` and `9` (as `strtoul` does). -/
def parseDigits (base : Nat) (val : Nat) : List Char → Option (Nat × List Char)
  | [] => some (val, [])
  | c :: cs =>
    if c.isDigit then
      if base = 8 && (c = '8' || c = '9') then
        some (val, c :: cs)
      else
        let v := val * base + (c.toNat - 48)
        if v > 0xFFFFFFFF then none else parseDigits base v cs
    else if base = 16 && ('a' ≤ c && c ≤ 'f') then
      let v := val * 16 + (c.toNat - 87)
      if v > 0xFFFFFFFF then none else parseDigits base v cs
    else if base = 16 && ('A' ≤ c && c ≤ 'F') then
      let v := val * 16 + (c.toNat - 55)
      if v > 0xFFFFFFFF then none else parseDigits base v cs
    else
      some (val, c :: cs)

/-- One dotted component: the first character must be a decimal digit;
`0x`/`0X` selects base 16 (at least one hexadecimal digit must follow —
otherwise the scan would stop on the `x`, which no legal continuation can
follow), a leading `0` selects base 8, anything else base 10. -/
def parsePart (cs : List Char) : Option (Nat × List Char) :=
  match cs with
  | [] => none
  | c :: rest =>
    if ¬ c.isDigit then none
    else if c = '0' then
      match rest with
      | x :: rest2 =>
        if x = 'x' || x = 'X' then
          match rest2 with
          | [] => none
          | d :: _ =>
            if d.isDigit || ('a' ≤ d && d ≤ 'f') || ('A' ≤ d && d ≤ 'F') then
              parseDigits 16 0 rest2
            else none
        else parseDigits 8 0 rest
      | [] => some (0, [])
    else parseDigits 10 0 (c :: rest)

/-- The whole of `inet_aton`: up to four dot-separated components; with `n` components
the first `n - 1` must fit in a byte and the last fills the remaining
`4 - (n - 1)` bytes; the resulting value is the big-endian 32-bit word. -/
def inet_aton (s : String) : Option Nat :=
  match parsePart s.data with
  | none => none
  | some (v1, r1) =>
    match r1 with
    | [] => some v1
    | c1 :: t1 =>
      if c1 = '.' then
        match parsePart t1 with
        | none => none
        | some (v2, r2) =>
          match r2 with
          | [] =>
            if v1 ≤ 0xFF && v2 ≤ 0xFFFFFF then some (v1 <<< 24 ||| v2) else none
          | c2 :: t2 =>
            if c2 = '.' then
              match parsePart t2 with
              | none => none
              | some (v3, r3) =>
                match r3 with
                | [] =>
                  if v1 ≤ 0xFF && v2 ≤ 0xFF && v3 ≤ 0xFFFF then
                    some (v1 <<< 24 ||| v2 <<< 16 ||| v3)
                  else none
                | c3 :: t3 =>
                  if c3 = '.' then
                    match parsePart t3 with
                    | none => none
                    | some (v4, r4) =>
                      match r4 with
                      | [] =>
                        if v1 ≤ 0xFF && v2 ≤ 0xFF && v3 ≤ 0xFF && v4 ≤ 0xFF then
                          some (v1 <<< 24 ||| v2 <<< 16 ||| v3 <<< 8 ||| v4)
                        else none
                      | _ => none
                  else none
            else none
      else none

/-- Function `ip2long` (lines 48-60): numerical representation of an IPv4 address
string; `none` models the `OSError` raised on strings `inet_aton`
rejects. -/
def ip2long (ip_str : String) : Option Nat :=
  inet_aton ip_str

/-- The decimal numeral of one byte value, as `inet_ntoa` prints it
(`%u`, no leading zeros). -/
def digitChar (d : Nat) : Char := Char.ofNat (48 + d)

/-- Decimal digits of a value below 256. -/
def decOctet (n : Nat) : List Char :=
  if n < 10 then [digitChar n]
  else if n < 100 then [digitChar (n / 10), digitChar (n % 10)]
  else [digitChar (n / 100), digitChar (n / 10 % 10), digitChar (n % 10)]

/-- The dotted quad built from four byte values. -/
def quadString (a b c d : Nat) : String :=
  String.mk (decOctet a ++ '.' :: (decOctet b ++ '.' :: (decOctet c ++ '.' :: decOctet d)))

/-- The canonical dotted-quad form of a 32-bit word: the four big-endian
bytes of `struct.pack( "!L", n)`, printed by `inet_ntoa`. -/
def fmtQuad (n : Nat) : String :=
  quadString (n / 16777216 % 256) (n / 65536 % 256) (n / 256 % 256) (n % 256)

/-- Function `long2ip` (lines 62-74): `socket.inet_ntoa(struct.pack( "!L", num))`;
`struct.pack( "!L", ...)` raises (here: `none`) for values outside 32 bits. -/
def long2ip (num : Nat) : Option String :=
  if num < 4294967296 then some (fmtQuad num) else none

/-- Function `swap32` (lines 76-87): reverse the byte order of a 32-bit value. -/
def swap32 (x : Nat) : Nat :=
  ((x <<< 24) &&& 0xFF000000) |||
  ((x <<< 8) &&& 0x00FF0000) |||
  ((x >>> 8) &&& 0x0000FF00) |||
  ((x >>> 24) &&& 0x000000FF)

/-! Section: anonymization (ip_anonymize.py, lines 116-162) -/

/-- Number of address bits subjected to scrambling (line 129): fixed at 32. -/
def BITS_TO_SCRAMBLE : Nat := 32

/-- The Python expression `v & mask` with `mask = (1 << 32) - 1` (lines
134, 140-141), applied to the arbitrary-precision integer returned by the
`ctypes` call (typed `c_int32`, hence possibly negative): on Python
integers, bitwise AND with `2 ** 32 - 1` is reduction modulo `2 ** 32`. -/
def and32 (v : Int) : Nat := (v % 4294967296).toNat

/-- Function `anonymize_ipv4` (lines 116-144): parse the address, reverse its byte
order, call the shared-library scramble function with second argument
`32 - BITS_TO_SCRAMBLE`, mask the result to 32 bits, reverse the byte
order again, and format.  The library function is passed in, as in the
source; an unparsable address propagates the exception (`none`). -/
def anonymize_ipv4 (anonymize_function : Nat → Nat → Int) (ip4_str : String) : Option String :=
  (ip2long ip4_str).bind fun addr =>
    let reversed_bytes := swap32 addr
    let anonymized_result := and32 (anonymize_function reversed_bytes (32 - BITS_TO_SCRAMBLE))
    long2ip (swap32 anonymized_result)

/-- The numeric core of `anonymize_ipv4`: the word-to-word anonymization
map induced by a primitive scramble function. -/
def anonymize_long (f : Nat → Nat → Int) (addr : Nat) : Nat :=
  swap32 (and32 (f (swap32 addr) (32 - BITS_TO_SCRAMBLE)))

/-- Here `init_anon` models `initialize_anon` (lines 146-162): the external
initialization entry point is invoked with the key-file path and the
selected algorithm identifier passed twice.  The call's status is
returned together with the argument triple of the external call (the
effect trace); the caller treats a non-zero status as fatal. -/
def init_anon (init_function : String → Nat → Nat → Int) (scramble_algo : Nat)
    (key_file_path : String) : Int × (String × Nat × Nat) :=
  (init_function key_file_path scramble_algo scramble_algo,
   (key_file_path, scramble_algo, scramble_algo))

/-! Section: the test-harness checker (test_ip_anonymize.py, lines 35-39) -/

/-- Binary length with explicit fuel; `fuel = n` steps always suffice
since the length of `n` is at most `n` for positive `n`. -/
def bitLenAux : Nat → Nat → Nat
  | 0, _ => 0
  | fuel + 1, n => if n = 0 then 0 else bitLenAux fuel (n / 2) + 1

/-- Python's `int.bit_length` on a non-negative integer: the number of
binary digits, with `bit_length 0 = 0`. -/
def bit_length (n : Nat) : Nat := bitLenAux n n

/-- Function `common_prefix_len` (test file, lines 35-36): `32 - (a ^ b).bit_length()`. -/
def common_prefix_len (ip_a ip_b : Nat) : Int :=
  32 - (bit_length (ip_a ^^^ ip_b) : Int)

/-- Function `check_prefix_preservation` (test file, lines 38-39). -/
def check_prefix_preservation (ip_a ip_b anon_a anon_b : String) : Option Bool :=
  (ip2long ip_a).bind fun a =>
  (ip2long ip_b).bind fun b =>
  (ip2long anon_a).bind fun a2 =>
  (ip2long anon_b).bind fun b2 =>
  some (common_prefix_len a b == common_prefix_len a2 b2)

/-! Section: the record stream transformer (ip_anonymize.py, lines 176-236)

`main` reads a comma-separated stream through `csv.DictReader`: the first
line is the header, each further line becomes a dict keyed by the header
fields.  Records are modelled as association lists with Python-dict
semantics (first occurrence wins on lookup, assignment updates in place
or appends a fresh key at the end).  `csv.DictWriter` is created with
`fieldnames = r.fieldnames` — the *input* header — so `writeheader`
emits the input header, and `writerow` (default `extrasaction='raise'`)
raises on any record key outside the input header and writes `restval`
(the empty string) for header fields missing from the record.  CSV
quoting and the `restkey`/`restval` padding of ragged data lines are not
modelled; no claim depends on them. -/

/-- The four field names taken from `sys.argv[3..6]` (lines 187-190). -/
structure FieldConfig where
  ip1field : String
  ip2field : String
  anonymizedfield_1 : String
  anonymizedfield_2 : String

/-- Python dict assignment `d[k] = v`: replace the value of an existing
key in place, otherwise append the new key at the end. -/
def dictSet (d : List (String × String)) (k v : String) : List (String × String) :=
  match d with
  | [] => [(k, v)]
  | (k0, v0) :: rest => if k0 = k then (k0, v) :: rest else (k0, v0) :: dictSet rest k v

/-- Method `DictWriter.writerow` with the default `extrasaction='raise'` and
`restval=''`: fails if the record holds a key outside `fieldnames`,
otherwise emits one cell per header field in header order. -/
def writerow (fieldnames : List String) (d : List (String × String)) : Option (List String) :=
  if d.all (fun kv => fieldnames.contains kv.1) then
    some (fieldnames.map (fun f => (d.lookup f).getD ""))
  else none

/-- The loop body (lines 229-236): read `result[ip1field]` (a missing key
raises), anonymize and store it at `anonymizedfield_1` when non-empty
(Python truthiness of a string), then the same for the second mapping on
the *updated* dict, then `w.writerow(result)`.  Any raised exception
(missing key, unparsable address, extra field) aborts the run: `none`. -/
def processRow (anon_fun : Nat → Nat → Int) (cfg : FieldConfig) (fieldnames : List String)
    (result : List (String × String)) : Option (List String) :=
  (result.lookup cfg.ip1field).bind fun v1 =>
  (if v1 ≠ "" then
      (anonymize_ipv4 anon_fun v1).map (fun a => dictSet result cfg.anonymizedfield_1 a)
    else some result).bind fun result1 =>
  (result1.lookup cfg.ip2field).bind fun v2 =>
  (if v2 ≠ "" then
      (anonymize_ipv4 anon_fun v2).map (fun a => dictSet result1 cfg.anonymizedfield_2 a)
    else some result1).bind fun result2 =>
  writerow fieldnames result2

/-- The header line written by `w.writeheader()` (lines 226-227): the
`DictWriter` is constructed with `fieldnames=r.fieldnames`, the input
header unchanged. -/
def outputHeader (fieldnames : List String) : List String := fieldnames

/-- Process the data lines in order, stopping at the first failing
record; returns the rows written and whether the run completed. -/
def streamRows (anon_fun : Nat → Nat → Int) (cfg : FieldConfig) (fieldnames : List String) :
    List (List String) → List (List String) × Bool
  | [] => ([], true)
  | cells :: rest =>
    match processRow anon_fun cfg fieldnames (fieldnames.zip cells) with
    | none => ([], false)
    | some out =>
      let p := streamRows anon_fun cfg fieldnames rest
      (out :: p.1, p.2)

/-- The external shared library at the interface `main` uses: whether
`ctypes.cdll.LoadLibrary` succeeds, the `scramble_init_from_file` entry
point and the `scramble_ip4` entry point. -/
structure ExternalLib where
  load_ok : Bool
  init : String → Nat → Nat → Int
  scramble : Nat → Nat → Int

/-- Outcome of a run of `main`: exit via `sys.exit(1)` before any input
is read (with the number of input lines read, always zero), a crash
before the header could be processed, a completed stream, or a crash
after the header while streaming. -/
inductive MainResult where
  | earlyExit (code : Nat) (linesRead : Nat)
  | noHeader
  | streamed (header : List String) (rows : List (List String))
  | failedMidStream (header : List String) (written : List (List String))
deriving DecidableEq

/-- Function `main` (lines 176-236) over `sys.argv` (the script name followed by
the user arguments) and the parsed input lines: exit code 1 without
touching the input unless exactly seven entries are in `argv` (line 177),
the library loads (lines 193-197) and the initialization call — always
made with `ScrambleAlgo.SCRAMBLE_BLOWFISH` (line 209) — returns zero
(lines 208-212); then stream the records.  The second component is the
trace of calls made to the external initialization entry point. -/
def mainModel (lib : ExternalLib) (argv : List String) (input : List (List String)) :
    MainResult × List (String × Nat × Nat) :=
  if argv.length ≠ 7 then (.earlyExit 1 0, [])
  else
    let KEYPATH := argv.getD 1 ""
    let cfg : FieldConfig := ⟨argv.getD 3 "", argv.getD 4 "", argv.getD 5 "", argv.getD 6 ""⟩
    if !lib.load_ok then (.earlyExit 1 0, [])
    else
      let initres := init_anon lib.init ScrambleAlgo.SCRAMBLE_BLOWFISH KEYPATH
      if initres.1 ≠ 0 then (.earlyExit 1 0, [initres.2])
      else
        match input with
        | [] => (.noHeader, [initres.2])
        | header :: rows =>
          let p := streamRows lib.scramble cfg header rows
          (if p.2 then .streamed (outputHeader header) p.1
           else .failedMidStream (outputHeader header) p.1, [initres.2])

/-! Section: bitwise helper lemmas -/

theorem and_shiftLeft_eq (a m k : Nat) : a &&& (m <<< k) = ((a >>> k) &&& m) <<< k := by
  apply Nat.eq_of_testBit_eq
  intro i
  simp only [Nat.testBit_and, Nat.testBit_shiftLeft, Nat.testBit_shiftRight]
  by_cases h : k ≤ i
  · have hik : k + (i - k) = i := by omega
    simp [h, hik]
  · simp [h]

theorem lor_eq_add (k : Nat) {x y : Nat} (hx : 2 ^ k ∣ x) (hy : y < 2 ^ k) :
    x ||| y = x + y := by
  obtain ⟨m, rfl⟩ := hx
  exact (Nat.mul_add_lt_is_or hy m).symm

/-- Recombining four fields whose lower three are bytes. -/
theorem quad_combine (a b c d : Nat) (hb : b < 256) (hc : c < 256) (hd : d < 256) :
    a <<< 24 ||| b <<< 16 ||| c <<< 8 ||| d = a * 16777216 + b * 65536 + c * 256 + d := by
  rw [Nat.shiftLeft_eq a, Nat.shiftLeft_eq b, Nat.shiftLeft_eq c]
  have e24 : (2 : Nat) ^ 24 = 16777216 := by norm_num
  have e16 : (2 : Nat) ^ 16 = 65536 := by norm_num
  have e8 : (2 : Nat) ^ 8 = 256 := by norm_num
  rw [e24, e16, e8]
  rw [show a * 16777216 ||| b * 65536 = a * 16777216 + b * 65536 from
    lor_eq_add 24 (e24 ▸ dvd_mul_left 16777216 a) (by rw [e24]; omega)]
  rw [show a * 16777216 + b * 65536 ||| c * 256 = a * 16777216 + b * 65536 + c * 256 from
    lor_eq_add 16 (by rw [e16]; exact ⟨a * 256 + b, by ring⟩) (by rw [e16]; omega)]
  rw [show a * 16777216 + b * 65536 + c * 256 ||| d = a * 16777216 + b * 65536 + c * 256 + d from
    lor_eq_add 8 (by rw [e8]; exact ⟨a * 65536 + b * 256 + c, by ring⟩) (by rw [e8]; omega)]

/-- Map `swap32` extracts and recombines the four bytes in reverse order. -/
theorem swap32_eq (x : Nat) :
    swap32 x = x % 256 * 16777216 + x / 256 % 256 * 65536 + x / 65536 % 256 * 256
      + x / 16777216 % 256 := by
  unfold swap32
  have t1 : (x <<< 24) &&& 0xFF000000 = (x % 256) <<< 24 := by
    rw [show (0xFF000000 : Nat) = 255 <<< 24 from by decide, and_shiftLeft_eq,
      Nat.shiftLeft_shiftRight, show (255 : Nat) = 2 ^ 8 - 1 from by norm_num,
      Nat.and_pow_two_sub_one_eq_mod]
  have t2 : (x <<< 8) &&& 0x00FF0000 = (x / 256 % 256) <<< 16 := by
    rw [show (0x00FF0000 : Nat) = 255 <<< 16 from by decide, and_shiftLeft_eq]
    have h2 : (x <<< 8) >>> 16 = x / 256 := by
      rw [Nat.shiftLeft_eq, Nat.shiftRight_eq_div_pow,
        show (2 : Nat) ^ 16 = 256 * 256 from by norm_num,
        show (2 : Nat) ^ 8 = 256 from by norm_num,
        Nat.mul_div_mul_right x 256 (by norm_num)]
    rw [h2, show (255 : Nat) = 2 ^ 8 - 1 from by norm_num, Nat.and_pow_two_sub_one_eq_mod]
  have t3 : (x >>> 8) &&& 0x0000FF00 = (x / 65536 % 256) <<< 8 := by
    rw [show (0x0000FF00 : Nat) = 255 <<< 8 from by decide, and_shiftLeft_eq]
    have h3 : (x >>> 8) >>> 8 = x / 65536 := by
      rw [← Nat.shiftRight_add, Nat.shiftRight_eq_div_pow]
    rw [h3, show (255 : Nat) = 2 ^ 8 - 1 from by norm_num, Nat.and_pow_two_sub_one_eq_mod]
  have t4 : (x >>> 24) &&& 0x000000FF = x / 16777216 % 256 := by
    rw [Nat.shiftRight_eq_div_pow, show (0x000000FF : Nat) = 2 ^ 8 - 1 from by norm_num,
      Nat.and_pow_two_sub_one_eq_mod]
  rw [t1, t2, t3, t4, quad_combine _ _ _ _ (Nat.mod_lt _ (by norm_num))
    (Nat.mod_lt _ (by norm_num)) (Nat.mod_lt _ (by norm_num))]

theorem swap32_lt (x : Nat) : swap32 x < 4294967296 := by
  rw [swap32_eq x]
  omega

/-- Reading the bytes back out of a byte-built word. -/
theorem bytes_recombine (A B C D : Nat) (hA : A < 256) (hB : B < 256) (hC : C < 256)
    (hD : D < 256) :
    (A * 16777216 + B * 65536 + C * 256 + D) % 256 = D ∧
    (A * 16777216 + B * 65536 + C * 256 + D) / 256 % 256 = C ∧
    (A * 16777216 + B * 65536 + C * 256 + D) / 65536 % 256 = B ∧
    (A * 16777216 + B * 65536 + C * 256 + D) / 16777216 % 256 = A := by
  omega

theorem swap32_involution {x : Nat} (h : x < 4294967296) : swap32 (swap32 x) = x := by
  obtain ⟨e0, e1, e2, e3⟩ := bytes_recombine (x % 256) (x / 256 % 256) (x / 65536 % 256)
    (x / 16777216 % 256) (by omega) (by omega) (by omega) (by omega)
  rw [swap32_eq (swap32 x), swap32_eq x, e0, e1, e2, e3]
  clear e0 e1 e2 e3
  omega

theorem and32_lt (v : Int) : and32 v < 4294967296 := by
  unfold and32
  have h1 : v % 4294967296 < 4294967296 := Int.emod_lt_of_pos v (by norm_num)
  omega

theorem and32_ofNat {n : Nat} (h : n < 4294967296) : and32 (n : Int) = n := by
  unfold and32
  omega

/-! Section: codec lemmas -/

theorem digitChar_isDigit {d : Nat} (h : d < 10) : (digitChar d).isDigit = true := by
  interval_cases d <;> decide

theorem digitChar_toNat {d : Nat} (h : d < 10) : (digitChar d).toNat - 48 = d := by
  interval_cases d <;> decide

theorem digitChar_eq_zero_iff {d : Nat} (h : d < 10) : (digitChar d = '0') ↔ d = 0 := by
  interval_cases d <;> decide

/-- The numeral scan stops in front of a dot or at the end of the string. -/
theorem parseDigits_stop {base val : Nat} {rest : List Char}
    (hrest : rest = [] ∨ ∃ t, rest = '.' :: t) :
    parseDigits base val rest = some (val, rest) := by
  rcases hrest with rfl | ⟨t, rfl⟩
  · rfl
  · simp [parseDigits]

/-- The scan in base 10 consumes a decimal digit. -/
theorem parseDigits_cons_digit {base val : Nat} {d : Nat} (hd : d < 10) (hb : base = 10)
    (hv : val * base + d ≤ 0xFFFFFFFF) (cs : List Char) :
    parseDigits base val (digitChar d :: cs) = parseDigits base (val * base + d) cs := by
  subst hb
  simp [parseDigits, digitChar_isDigit hd, digitChar_toNat hd]
  omega

/-- A component whose first character is a non-zero decimal digit is
scanned in base 10. -/
theorem parsePart_nonzero_digit {c : Char} (hdig : c.isDigit = true) (hne : c ≠ '0')
    (cs : List Char) : parsePart (c :: cs) = parseDigits 10 0 (c :: cs) := by
  rw [parsePart.eq_def]
  simp [hdig, hne]

/-- Scanning the canonical decimal numeral of a byte value recovers the
value, leaving a rest that starts with a dot (or is empty) untouched. -/
theorem parsePart_decOctet {v : Nat} (hv : v < 256) (rest : List Char)
    (hrest : rest = [] ∨ ∃ t, rest = '.' :: t) :
    parsePart (decOctet v ++ rest) = some (v, rest) := by
  by_cases h10 : v < 10
  · rw [show decOctet v = [digitChar v] from by rw [decOctet]; rw [if_pos h10]]
    by_cases h0 : v = 0
    · subst h0
      rcases hrest with rfl | ⟨t, rfl⟩ <;>
        simp [parsePart, parseDigits, show digitChar 0 = '0' from by decide]
    · rw [show ([digitChar v] ++ rest) = digitChar v :: rest from rfl]
      rw [parsePart_nonzero_digit (digitChar_isDigit h10)
        (fun hc => h0 ((digitChar_eq_zero_iff h10).mp hc)) rest]
      rw [parseDigits_cons_digit h10 rfl (by omega)]
      simpa using parseDigits_stop hrest
  · by_cases h100 : v < 100
    · rw [show decOctet v = [digitChar (v / 10), digitChar (v % 10)] from by
        rw [decOctet, if_neg h10, if_pos h100]]
      rw [show ([digitChar (v / 10), digitChar (v % 10)] ++ rest)
          = digitChar (v / 10) :: digitChar (v % 10) :: rest from rfl]
      rw [parsePart_nonzero_digit (digitChar_isDigit (by omega : v / 10 < 10))
        (by rw [Ne, digitChar_eq_zero_iff (by omega : v / 10 < 10)]; omega) _]
      rw [parseDigits_cons_digit (by omega : v / 10 < 10) rfl (by omega)]
      rw [parseDigits_cons_digit (by omega : v % 10 < 10) rfl (by omega)]
      rw [parseDigits_stop hrest]
      congr 2
      omega
    · rw [show decOctet v = [digitChar (v / 100), digitChar (v / 10 % 10), digitChar (v % 10)]
          from by rw [decOctet, if_neg h10, if_neg h100]]
      rw [show ([digitChar (v / 100), digitChar (v / 10 % 10), digitChar (v % 10)] ++ rest)
          = digitChar (v / 100) :: digitChar (v / 10 % 10) :: digitChar (v % 10) :: rest from rfl]
      rw [parsePart_nonzero_digit (digitChar_isDigit (by omega : v / 100 < 10))
        (by rw [Ne, digitChar_eq_zero_iff (by omega : v / 100 < 10)]; omega) _]
      rw [parseDigits_cons_digit (by omega : v / 100 < 10) rfl (by omega)]
      rw [parseDigits_cons_digit (by omega : v / 10 % 10 < 10) rfl (by omega)]
      rw [parseDigits_cons_digit (by omega : v % 10 < 10) rfl (by omega)]
      rw [parseDigits_stop hrest]
      congr 2
      omega

/-- Parsing a canonical dotted quad of bytes. -/
theorem ip2long_quadString {a b c d : Nat} (ha : a < 256) (hb : b < 256) (hc : c < 256)
    (hd : d < 256) :
    ip2long (quadString a b c d) = some (a * 16777216 + b * 65536 + c * 256 + d) := by
  have hdata : (quadString a b c d).data
      = decOctet a ++ '.' :: (decOctet b ++ '.' :: (decOctet c ++ '.' :: decOctet d)) := rfl
  unfold ip2long inet_aton
  rw [hdata]
  rw [parsePart_decOctet ha _ (Or.inr ⟨_, rfl⟩)]
  dsimp only
  rw [if_pos (rfl : ('.' : Char) = '.')]
  rw [parsePart_decOctet hb _ (Or.inr ⟨_, rfl⟩)]
  dsimp only
  rw [if_pos (rfl : ('.' : Char) = '.')]
  rw [parsePart_decOctet hc _ (Or.inr ⟨_, rfl⟩)]
  dsimp only
  rw [if_pos (rfl : ('.' : Char) = '.')]
  rw [show parsePart (decOctet d) = some (d, []) from by
    simpa using parsePart_decOctet hd [] (Or.inl rfl)]
  dsimp only
  rw [if_pos (by simp; omega)]
  rw [quad_combine a b c d hb hc hd]

/-- Formatting a byte-built word gives back the canonical quad. -/
theorem fmtQuad_quad {a b c d : Nat} (ha : a < 256) (hb : b < 256) (hc : c < 256)
    (hd : d < 256) :
    fmtQuad (a * 16777216 + b * 65536 + c * 256 + d) = quadString a b c d := by
  obtain ⟨e0, e1, e2, e3⟩ := bytes_recombine a b c d ha hb hc hd
  unfold fmtQuad
  rw [e0, e1, e2, e3]

/-- Round trip: parsing the canonical form of any 32-bit word gives the
word back. -/
theorem ip2long_fmtQuad {n : Nat} (h : n < 4294967296) : ip2long (fmtQuad n) = some n := by
  unfold fmtQuad
  rw [ip2long_quadString (by omega) (by omega) (by omega) (by omega)]
  congr 1
  omega


theorem parseDigits_le {cs : List Char} {base val v : Nat} {rest : List Char}
    (hval : val ≤ 0xFFFFFFFF) (h : parseDigits base val cs = some (v, rest)) :
    v ≤ 0xFFFFFFFF := by
  induction cs generalizing val with
  | nil =>
    simp only [parseDigits, Option.some.injEq, Prod.mk.injEq] at h
    omega
  | cons c cs ih =>
    simp only [parseDigits] at h
    split_ifs at h with h1 h2 h3 h4 h5
    · injection h with h'
      injection h' with h1 h2
      omega
    · exact ih (by omega) h
    · exact ih (by omega) h
    · exact ih (by omega) h
    · injection h with h'
      injection h' with h1 h2
      omega

theorem parsePart_le {cs : List Char} {v : Nat} {rest : List Char}
    (h : parsePart cs = some (v, rest)) : v ≤ 0xFFFFFFFF := by
  rcases cs with _ | ⟨c, cs⟩
  · exact absurd h (by simp [parsePart])
  · rw [parsePart.eq_def] at h
    simp only at h
    by_cases h1 : c.isDigit
    · rw [if_neg (by simpa using h1)] at h
      by_cases h2 : c = '0'
      · rw [if_pos h2] at h
        rcases cs with _ | ⟨x, cs2⟩
        · simp only [Option.some.injEq, Prod.mk.injEq] at h
          omega
        · dsimp only at h
          by_cases h3 : (x = 'x' || x = 'X') = true
          · rw [if_pos h3] at h
            rcases cs2 with _ | ⟨d, cs3⟩
            · exact absurd h (by simp)
            · dsimp only at h
              split_ifs at h with h4
              exact parseDigits_le (by omega) h
          · rw [if_neg h3] at h
            exact parseDigits_le (by omega) h
      · rw [if_neg h2] at h
        exact parseDigits_le (by omega) h
    · rw [if_pos (by simpa using h1)] at h
      exact absurd h (by simp)

theorem ip2long_lt {s : String} {n : Nat} (h : ip2long s = some n) : n < 4294967296 := by
  have shl24 : ∀ w : Nat, w ≤ 255 → w <<< 24 < 4294967296 := fun w hw => by
    rw [Nat.shiftLeft_eq, show (2 : Nat) ^ 24 = 16777216 from by norm_num]; omega
  have shl16 : ∀ w : Nat, w ≤ 255 → w <<< 16 < 4294967296 := fun w hw => by
    rw [Nat.shiftLeft_eq, show (2 : Nat) ^ 16 = 65536 from by norm_num]; omega
  have shl8 : ∀ w : Nat, w ≤ 255 → w <<< 8 < 4294967296 := fun w hw => by
    rw [Nat.shiftLeft_eq, show (2 : Nat) ^ 8 = 256 from by norm_num]; omega
  have orlt : ∀ x y : Nat, x < 4294967296 → y < 4294967296 → (x ||| y) < 4294967296 := by
    intro x y hx hy
    have h32 : (4294967296 : Nat) = 2 ^ 32 := by norm_num
    rw [h32] at hx hy ⊢
    exact Nat.or_lt_two_pow hx hy
  unfold ip2long inet_aton at h
  cases hp1 : parsePart s.data with
  | none => rw [hp1] at h; exact absurd h (by simp)
  | some p1 =>
    obtain ⟨v1, r1⟩ := p1
    rw [hp1] at h
    rcases r1 with _ | ⟨c1, t1⟩
    · dsimp only at h
      simp only [Option.some.injEq] at h
      have := parsePart_le hp1
      omega
    · dsimp only at h
      by_cases hc1 : c1 = '.'
      case neg => rw [if_neg hc1] at h; exact absurd h (by simp)
      rw [if_pos hc1] at h
      cases hp2 : parsePart t1 with
      | none => rw [hp2] at h; exact absurd h (by simp)
      | some p2 =>
        obtain ⟨v2, r2⟩ := p2
        rw [hp2] at h
        rcases r2 with _ | ⟨c2, t2⟩
        · dsimp only at h
          split_ifs at h with hb
          simp only [Option.some.injEq] at h
          simp only [Bool.and_eq_true, decide_eq_true_eq] at hb
          subst h
          exact orlt _ _ (shl24 _ hb.1) (by omega)
        · dsimp only at h
          by_cases hc2 : c2 = '.'
          case neg => rw [if_neg hc2] at h; exact absurd h (by simp)
          rw [if_pos hc2] at h
          cases hp3 : parsePart t2 with
          | none => rw [hp3] at h; exact absurd h (by simp)
          | some p3 =>
            obtain ⟨v3, r3⟩ := p3
            rw [hp3] at h
            rcases r3 with _ | ⟨c3, t3⟩
            · dsimp only at h
              split_ifs at h with hb
              simp only [Option.some.injEq] at h
              simp only [Bool.and_eq_true, decide_eq_true_eq] at hb
              obtain ⟨⟨hb1, hb2⟩, hb3⟩ := hb
              subst h
              exact orlt _ _ (orlt _ _ (shl24 _ hb1) (shl16 _ hb2)) (by omega)
            · dsimp only at h
              by_cases hc3 : c3 = '.'
              case neg => rw [if_neg hc3] at h; exact absurd h (by simp)
              rw [if_pos hc3] at h
              cases hp4 : parsePart t3 with
              | none => rw [hp4] at h; exact absurd h (by simp)
              | some p4 =>
                obtain ⟨v4, r4⟩ := p4
                rw [hp4] at h
                rcases r4 with _ | ⟨c4, t4⟩
                · dsimp only at h
                  split_ifs at h with hb
                  simp only [Option.some.injEq] at h
                  simp only [Bool.and_eq_true, decide_eq_true_eq] at hb
                  obtain ⟨⟨⟨hb1, hb2⟩, hb3⟩, hb4⟩ := hb
                  subst h
                  exact orlt _ _ (orlt _ _ (orlt _ _ (shl24 _ hb1) (shl16 _ hb2))
                    (shl8 _ hb3)) (by omega)
                · dsimp only at h
                  exact absurd h (by simp)

theorem parseDigits_dots {cs : List Char} {base val v : Nat} {rest : List Char}
    (h : parseDigits base val cs = some (v, rest)) :
    rest.count '.' = cs.count '.' := by
  induction cs generalizing val with
  | nil =>
    simp only [parseDigits, Option.some.injEq, Prod.mk.injEq] at h
    rw [← h.2]
  | cons c cs ih =>
    by_cases hc : c = '.'
    · subst hc
      simp only [parseDigits, show (('.' : Char).isDigit) = false from rfl,
        show (decide (('a' : Char) ≤ '.')) = false from rfl,
        show (decide (('A' : Char) ≤ '.')) = false from rfl, Bool.false_and, Bool.and_false,
        Bool.false_eq_true, if_false, Option.some.injEq, Prod.mk.injEq] at h
      rw [← h.2]
    · have hcount : (c :: cs).count '.' = cs.count '.' := by
        rw [List.count_cons]
        simp [hc]
      rw [hcount]
      simp only [parseDigits] at h
      split_ifs at h
      all_goals first
        | (simp only [Option.some.injEq, Prod.mk.injEq] at h
           rw [← h.2, hcount])
        | (rw [ih h])

theorem parsePart_dots {cs : List Char} {v : Nat} {rest : List Char}
    (h : parsePart cs = some (v, rest)) : rest.count '.' = cs.count '.' := by
  rcases cs with _ | ⟨c, cs⟩
  · exact absurd h (by simp [parsePart])
  · rw [parsePart.eq_def] at h
    simp only at h
    by_cases h1 : c.isDigit
    · rw [if_neg (by simpa using h1)] at h
      have hcdot : ¬ c = '.' := by
        intro e
        rw [e] at h1
        exact absurd h1 (by decide)
      have hcount : (c :: cs).count '.' = cs.count '.' := by
        rw [List.count_cons]
        simp [hcdot]
      rw [hcount]
      by_cases h2 : c = '0'
      · rw [if_pos h2] at h
        rcases cs with _ | ⟨x, cs2⟩
        · simp only [Option.some.injEq, Prod.mk.injEq] at h
          rw [← h.2]
        · dsimp only at h
          by_cases h3 : (x = 'x' || x = 'X') = true
          · rw [if_pos h3] at h
            rcases cs2 with _ | ⟨d, cs3⟩
            · exact absurd h (by simp)
            · dsimp only at h
              split_ifs at h with h4
              have hx : ¬ x = '.' := by
                simp only [Bool.or_eq_true, decide_eq_true_eq] at h3
                rcases h3 with e2 | e2 <;> subst e2 <;> decide
              rw [parseDigits_dots h]
              conv_rhs => rw [List.count_cons]
              simp [hx]
          · rw [if_neg h3] at h
            rw [parseDigits_dots h]
      · rw [if_neg h2] at h
        rw [parseDigits_dots h]
        exact hcount
    · rw [if_pos (by simpa using h1)] at h
      exact absurd h (by simp)

/-- A string with four or more dots is rejected by `inet_aton`. -/
theorem inet_aton_many_dots {s : String} (h : 4 ≤ s.data.count '.') : inet_aton s = none := by
  unfold inet_aton
  cases hp1 : parsePart s.data with
  | none => rfl
  | some p1 =>
    obtain ⟨v1, r1⟩ := p1
    have hd1 : 4 ≤ r1.count '.' := by rw [parsePart_dots hp1]; exact h
    rcases r1 with _ | ⟨c1, t1⟩
    · simp at hd1
    · dsimp only
      by_cases hc1 : c1 = '.'
      case neg => rw [if_neg hc1]
      rw [if_pos hc1]
      subst hc1
      have ht1 : 3 ≤ t1.count '.' := by
        have e : ('.' :: t1).count '.' = t1.count '.' + 1 := by simp
        omega
      cases hp2 : parsePart t1 with
      | none => rfl
      | some p2 =>
        obtain ⟨v2, r2⟩ := p2
        have hd2 : 3 ≤ r2.count '.' := by rw [parsePart_dots hp2]; exact ht1
        rcases r2 with _ | ⟨c2, t2⟩
        · simp at hd2
        · dsimp only
          by_cases hc2 : c2 = '.'
          case neg => rw [if_neg hc2]
          rw [if_pos hc2]
          subst hc2
          have ht2 : 2 ≤ t2.count '.' := by
            have e : ('.' :: t2).count '.' = t2.count '.' + 1 := by simp
            omega
          cases hp3 : parsePart t2 with
          | none => rfl
          | some p3 =>
            obtain ⟨v3, r3⟩ := p3
            have hd3 : 2 ≤ r3.count '.' := by rw [parsePart_dots hp3]; exact ht2
            rcases r3 with _ | ⟨c3, t3⟩
            · simp at hd3
            · dsimp only
              by_cases hc3 : c3 = '.'
              case neg => rw [if_neg hc3]
              rw [if_pos hc3]
              subst hc3
              have ht3 : 1 ≤ t3.count '.' := by
                have e : ('.' :: t3).count '.' = t3.count '.' + 1 := by simp
                omega
              cases hp4 : parsePart t3 with
              | none => rfl
              | some p4 =>
                obtain ⟨v4, r4⟩ := p4
                have hd4 : 1 ≤ r4.count '.' := by rw [parsePart_dots hp4]; exact ht3
                rcases r4 with _ | ⟨c4, t4⟩
                · simp at hd4
                · rfl

/-! Section: record and dict lemmas -/

theorem lookup_cons_beq_true {k k0 v0 : String} {rest : List (String × String)}
    (h : (k == k0) = true) : ((k0, v0) :: rest).lookup k = some v0 := by
  rw [List.lookup_cons, h]

theorem lookup_cons_beq_false {k k0 v0 : String} {rest : List (String × String)}
    (h : (k == k0) = false) : ((k0, v0) :: rest).lookup k = rest.lookup k := by
  rw [List.lookup_cons, h]

theorem dictSet_lookup_self (d : List (String × String)) (k v : String) :
    (dictSet d k v).lookup k = some v := by
  induction d with
  | nil => simp [dictSet]
  | cons kv rest ih =>
    obtain ⟨k0, v0⟩ := kv
    by_cases hk : k0 = k
    · subst hk
      simp [dictSet]
    · rw [dictSet, if_neg hk,
        lookup_cons_beq_false (beq_eq_false_iff_ne.mpr (fun e => hk e.symm))]
      exact ih

theorem dictSet_lookup_ne (d : List (String × String)) (k v : String) {k2 : String}
    (h : k2 ≠ k) : (dictSet d k v).lookup k2 = d.lookup k2 := by
  induction d with
  | nil =>
    rw [dictSet, lookup_cons_beq_false (beq_eq_false_iff_ne.mpr h), List.lookup_nil]
  | cons kv rest ih =>
    obtain ⟨k0, v0⟩ := kv
    by_cases hk : k0 = k
    · subst hk
      rw [dictSet, if_pos rfl]
      by_cases h2 : (k2 == k0) = true
      · exact absurd (by simpa using h2) h
      · rw [lookup_cons_beq_false (by simpa using h2),
          lookup_cons_beq_false (by simpa using h2)]
    · rw [dictSet, if_neg hk]
      by_cases h2 : (k2 == k0) = true
      · rw [lookup_cons_beq_true h2, lookup_cons_beq_true h2]
      · rw [lookup_cons_beq_false (by simpa using h2),
          lookup_cons_beq_false (by simpa using h2)]
        exact ih

theorem dictSet_mem_self (d : List (String × String)) (k v : String) :
    (k, v) ∈ dictSet d k v := by
  induction d with
  | nil => simp [dictSet]
  | cons kv rest ih =>
    obtain ⟨k0, v0⟩ := kv
    by_cases hk : k0 = k
    · subst hk
      simp [dictSet]
    · rw [dictSet, if_neg hk]
      exact List.mem_cons_of_mem _ ih

theorem dictSet_keys_subset (d : List (String × String)) (k v : String) {kv2 : String × String}
    (h : kv2 ∈ dictSet d k v) : kv2 ∈ d ∨ kv2.1 = k := by
  induction d with
  | nil =>
    simp [dictSet] at h
    right
    rw [h]
  | cons kv rest ih =>
    obtain ⟨k0, v0⟩ := kv
    by_cases hk : k0 = k
    · subst hk
      rw [dictSet, if_pos rfl] at h
      rcases List.mem_cons.mp h with h2 | h2
      · right
        rw [h2]
      · left
        exact List.mem_cons_of_mem _ h2
    · rw [dictSet, if_neg hk] at h
      rcases List.mem_cons.mp h with h2 | h2
      · left
        rw [h2]
        exact List.mem_cons_self _ _
      · rcases ih h2 with h3 | h3
        · left
          exact List.mem_cons_of_mem _ h3
        · right
          exact h3

theorem dictSet_mem_of_ne {d : List (String × String)} {kv2 : String × String} {k v : String}
    (h : kv2 ∈ d) (hne : kv2.1 ≠ k) : kv2 ∈ dictSet d k v := by
  induction d with
  | nil => exact absurd h (List.not_mem_nil _)
  | cons kv rest ih =>
    obtain ⟨k0, v0⟩ := kv
    by_cases hk : k0 = k
    · subst hk
      rw [dictSet, if_pos rfl]
      rcases List.mem_cons.mp h with h2 | h2
      · exact absurd (by rw [h2]) hne
      · exact List.mem_cons_of_mem _ h2
    · rw [dictSet, if_neg hk]
      rcases List.mem_cons.mp h with h2 | h2
      · rw [h2]
        exact List.mem_cons_self _ _
      · exact List.mem_cons_of_mem _ (ih h2)

/-- Model `writerow` fails whenever the record holds a key outside the header. -/
theorem writerow_none {fieldnames : List String} {d : List (String × String)}
    {kv : String × String} (hkv : kv ∈ d) (hout : ¬ kv.1 ∈ fieldnames) :
    writerow fieldnames d = none := by
  unfold writerow
  rw [if_neg]
  intro hall
  rw [List.all_eq_true] at hall
  have := hall kv hkv
  rw [List.contains, List.elem_iff] at this
  exact hout this

/-- A successful `writerow` emits, for every header position, the
record's value there (or the empty `restval`). -/
theorem writerow_some {fieldnames : List String} {d : List (String × String)}
    {out : List String} (h : writerow fieldnames d = some out) :
    out = fieldnames.map (fun f2 => (d.lookup f2).getD "") := by
  unfold writerow at h
  split_ifs at h
  injection h with h
  exact h.symm

/-- Decomposition of the second field mapping and the final write. -/
theorem processRow_tail {f : Nat → Nat → Int} {cfg : FieldConfig} {fieldnames : List String}
    {row1 : List (String × String)} {out : List String}
    (h : ((row1.lookup cfg.ip2field).bind fun v2 =>
      (if v2 ≠ "" then (anonymize_ipv4 f v2).map (fun a => dictSet row1 cfg.anonymizedfield_2 a)
        else some row1).bind fun result2 => writerow fieldnames result2) = some out) :
    ∃ v2 row2, row1.lookup cfg.ip2field = some v2 ∧
      ((v2 ≠ "" ∧ ∃ a2, anonymize_ipv4 f v2 = some a2 ∧
          row2 = dictSet row1 cfg.anonymizedfield_2 a2) ∨ (v2 = "" ∧ row2 = row1)) ∧
      writerow fieldnames row2 = some out := by
  cases h2 : row1.lookup cfg.ip2field with
  | none => rw [h2] at h; exact absurd h (by simp)
  | some v2 =>
    rw [h2, Option.some_bind] at h
    by_cases hv2 : v2 = ""
    · rw [if_neg (by simp [hv2]), Option.some_bind] at h
      exact ⟨v2, row1, rfl, Or.inr ⟨hv2, rfl⟩, h⟩
    · rw [if_pos hv2] at h
      cases ha2 : anonymize_ipv4 f v2 with
      | none => rw [ha2] at h; exact absurd h (by simp)
      | some a2 =>
        rw [ha2, Option.map_some', Option.some_bind] at h
        exact ⟨v2, _, rfl, Or.inl ⟨hv2, a2, ha2, rfl⟩, h⟩

/-- Decomposition of a successful run of the loop body: the two reads,
the two conditional updates and the final write, in program order. -/
theorem processRow_structure {f : Nat → Nat → Int} {cfg : FieldConfig}
    {fieldnames : List String} {row : List (String × String)} {out : List String}
    (h : processRow f cfg fieldnames row = some out) :
    ∃ v1 row1 v2 row2,
      row.lookup cfg.ip1field = some v1 ∧
      ((v1 ≠ "" ∧ ∃ a1, anonymize_ipv4 f v1 = some a1 ∧
          row1 = dictSet row cfg.anonymizedfield_1 a1) ∨ (v1 = "" ∧ row1 = row)) ∧
      row1.lookup cfg.ip2field = some v2 ∧
      ((v2 ≠ "" ∧ ∃ a2, anonymize_ipv4 f v2 = some a2 ∧
          row2 = dictSet row1 cfg.anonymizedfield_2 a2) ∨ (v2 = "" ∧ row2 = row1)) ∧
      writerow fieldnames row2 = some out := by
  unfold processRow at h
  cases h1 : row.lookup cfg.ip1field with
  | none => rw [h1] at h; exact absurd h (by simp)
  | some v1 =>
    rw [h1, Option.some_bind] at h
    by_cases hv1 : v1 = ""
    · rw [if_neg (by simp [hv1]), Option.some_bind] at h
      obtain ⟨v2, row2, hl2, hp2, hw⟩ := processRow_tail h
      exact ⟨v1, row, v2, row2, rfl, Or.inr ⟨hv1, rfl⟩, hl2, hp2, hw⟩
    · rw [if_pos hv1] at h
      cases ha1 : anonymize_ipv4 f v1 with
      | none => rw [ha1] at h; exact absurd h (by simp)
      | some a1 =>
        rw [ha1, Option.map_some', Option.some_bind] at h
        obtain ⟨v2, row2, hl2, hp2, hw⟩ := processRow_tail h
        exact ⟨v1, _, v2, row2, rfl, Or.inl ⟨hv1, a1, ha1, rfl⟩, hl2, hp2, hw⟩

/-! Section: anonymization lemmas -/

theorem anonymize_long_lt (f : Nat → Nat → Int) (a : Nat) :
    anonymize_long f a < 4294967296 :=
  swap32_lt _

/-- A successful `anonymize_ipv4` run decomposes into a parse and the
numeric anonymization map, and its output parses back to that map's
value. -/
theorem anonymize_ipv4_some {f : Nat → Nat → Int} {s oa : String}
    (h : anonymize_ipv4 f s = some oa) :
    ∃ A, ip2long s = some A ∧ oa = fmtQuad (anonymize_long f A) ∧
      ip2long oa = some (anonymize_long f A) := by
  unfold anonymize_ipv4 at h
  cases hpa : ip2long s with
  | none => rw [hpa] at h; exact absurd h (by simp)
  | some A =>
    rw [hpa, Option.some_bind] at h
    dsimp only at h
    rw [show swap32 (and32 (f (swap32 A) (32 - BITS_TO_SCRAMBLE)))
        = anonymize_long f A from rfl] at h
    rw [long2ip, if_pos (anonymize_long_lt f A)] at h
    injection h with h
    subst h
    exact ⟨A, rfl, rfl, ip2long_fmtQuad (anonymize_long_lt f A)⟩

/-! Section: the claims -/

/-- C1: for a fixed primitive scramble function whose induced
anonymization map preserves common-prefix lengths of 32-bit addresses
(the external prefix-preservation contract of the specification, stated
over the full `byteSwap` / mask / `byteSwap` wrapping of §4.2), any two
valid IPv4 address strings share exactly as many leading bits as their
`anonymize_ipv4` images do, as measured by the test harness's
`check_prefix_preservation`. -/
theorem claim_C1_prefix_preservation (f : Nat → Nat → Int)
    (contract : ∀ a b : Nat, a < 4294967296 → b < 4294967296 →
      common_prefix_len (anonymize_long f a) (anonymize_long f b) = common_prefix_len a b)
    (sa sb oa ob : String)
    (hoa : anonymize_ipv4 f sa = some oa) (hob : anonymize_ipv4 f sb = some ob) :
    check_prefix_preservation sa sb oa ob = some true := by
  obtain ⟨A, hpa, _, hra⟩ := anonymize_ipv4_some hoa
  obtain ⟨B, hpb, _, hrb⟩ := anonymize_ipv4_some hob
  unfold check_prefix_preservation
  rw [hpa, Option.some_bind, hpb, Option.some_bind, hra, Option.some_bind, hrb,
    Option.some_bind]
  rw [contract A B (ip2long_lt hpa) (ip2long_lt hpb)]
  rw [beq_self_eq_true]

/-- Witness for C1: the identity primitive satisfies the contract, and on
two addresses sharing a `/31` the checker reports preservation. -/
theorem claim_C1_witness :
    anonymize_ipv4 (fun x _ => (x : Int)) "1.2.3.4" = some "1.2.3.4" ∧
    check_prefix_preservation "1.2.3.4" "1.2.3.5" "1.2.3.4" "1.2.3.5" = some true := by
  have ha : anonymize_ipv4 (fun x _ => (x : Int)) "1.2.3.4" = some "1.2.3.4" := by decide
  have hb : anonymize_ipv4 (fun x _ => (x : Int)) "1.2.3.5" = some "1.2.3.5" := by decide
  refine ⟨ha, claim_C1_prefix_preservation _ ?_ _ _ _ _ ha hb⟩
  intro a b hla hlb
  have e : ∀ c : Nat, c < 4294967296 → anonymize_long (fun x _ => (x : Int)) c = c := by
    intro c hc
    unfold anonymize_long
    simp only
    rw [and32_ofNat (swap32_lt c), swap32_involution hc]
  rw [e a hla, e b hlb]

/-- C2: on any successfully parsed address word `x`, `anonymize_ipv4`
computes exactly `long2ip (swap32 ((f (swap32 x) 0) & 0xFFFFFFFF))` —
the byte-swapped word is passed to the primitive with second argument
`0` (all 32 bits scrambled), the result is masked to 32 bits, and the
byte order is reversed again before formatting. -/
theorem claim_C2_anonymize_formula (f : Nat → Nat → Int) (s : String) (x : Nat)
    (hs : ip2long s = some x) :
    anonymize_ipv4 f s = long2ip (swap32 (and32 (f (swap32 x) 0))) := by
  unfold anonymize_ipv4
  rw [hs, Option.some_bind]
  rfl

/-- Witness for C2 at `1.2.3.4` and a constant primitive. -/
theorem claim_C2_witness :
    ip2long "1.2.3.4" = some 16909060 ∧
    anonymize_ipv4 (fun _ _ => (7 : Int)) "1.2.3.4"
      = long2ip (swap32 (and32 ((fun _ _ => (7 : Int)) (swap32 16909060) 0))) :=
  ⟨by decide, claim_C2_anonymize_formula (fun _ _ => (7 : Int)) "1.2.3.4" 16909060 (by decide)⟩

/-- C5: the codec round-trips exactly on every valid canonical
dotted-quad string.  `quadString a b c d` with each octet below 256
enumerates exactly the canonical strings (four dot-separated decimal
octets in `[0, 255]`, printed without leading zeros). -/
theorem claim_C5_roundtrip (a b c d : Nat) (ha : a < 256) (hb : b < 256) (hc : c < 256)
    (hd : d < 256) :
    (ip2long (quadString a b c d)).bind long2ip = some (quadString a b c d) := by
  rw [ip2long_quadString ha hb hc hd, Option.some_bind, long2ip, if_pos (by omega),
    fmtQuad_quad ha hb hc hd]

/-- Witness for C5 at `192.168.1.1`. -/
theorem claim_C5_witness :
    quadString 192 168 1 1 = "192.168.1.1" ∧
    (ip2long (quadString 192 168 1 1)).bind long2ip = some (quadString 192 168 1 1) :=
  ⟨by decide, claim_C5_roundtrip 192 168 1 1 (by decide) (by decide) (by decide) (by decide)⟩

/-- C6: on 32-bit inputs `swap32` is self-inverse, and it exchanges byte
0 with byte 3 and byte 1 with byte 2. -/
theorem claim_C6_swap32_involution (x : Nat) (h : x < 4294967296) :
    swap32 (swap32 x) = x ∧
    swap32 x % 256 = x / 16777216 % 256 ∧
    swap32 x / 16777216 % 256 = x % 256 ∧
    swap32 x / 256 % 256 = x / 65536 % 256 ∧
    swap32 x / 65536 % 256 = x / 256 % 256 := by
  obtain ⟨e0, e1, e2, e3⟩ := bytes_recombine (x % 256) (x / 256 % 256) (x / 65536 % 256)
    (x / 16777216 % 256) (by omega) (by omega) (by omega) (by omega)
  refine ⟨swap32_involution h, ?_, ?_, ?_, ?_⟩ <;> rw [swap32_eq x]
  · exact e0
  · exact e3
  · exact e1
  · exact e2

/-- Witness for C6 at `0x01020304`. -/
theorem claim_C6_witness :
    (0x01020304 : Nat) < 4294967296 ∧ swap32 (swap32 0x01020304) = 0x01020304 :=
  ⟨by decide, (claim_C6_swap32_involution 0x01020304 (by decide)).1⟩

/-- Counterexample to C3: `ip2long` does not reject every string that is
not four dot-separated decimal octets — the cited example `"1.2.3"` is
accepted (as `1.2.0.3`), and so is `"0x10.0.0.1"` (as `16.0.0.1`),
because `socket.inet_aton` implements the general numbers-and-dots
notation. -/
theorem claim_C3_counterexample :
    ip2long "1.2.3" = some 16908291 ∧ ¬ ip2long "1.2.3" = none ∧
    ip2long "0x10.0.0.1" = some 268435457 := by
  refine ⟨by decide, ?_, by decide⟩
  intro h
  exact absurd (by decide : ip2long "1.2.3" = some 16908291) (by rw [h]; simp)

/-- C3 as amended: `ip2long` accepts exactly `inet_aton`'s
numbers-and-dots notation — strings with fewer than four components and
hexadecimal or octal components parse to an address value — and fails
only on strings outside that notation; in particular every string with
more than four dot-separated components is rejected. -/
theorem claim_C3_amended (s : String) (h : 4 ≤ s.data.count '.') : ip2long s = none :=
  inet_aton_many_dots h

/-- Witness for the amended C3: five components are rejected. -/
theorem claim_C3_amended_witness :
    4 ≤ "1.2.3.4.5".data.count '.' ∧ ip2long "1.2.3.4.5" = none :=
  ⟨by decide, claim_C3_amended "1.2.3.4.5" (by decide)⟩

/-- Counterexample to C4: with target fields absent from the input
header, the emitted header is *not* the input header with the two target
names appended (the `DictWriter` is built over the input header
unchanged), and a record with non-empty source fields is not written —
`writerow` raises on the extra keys, so no transformed line is
produced. -/
theorem claim_C4_counterexample :
    outputHeader [ "id_orig_h", "id_resp_h"]
        ≠ [ "id_orig_h", "id_resp_h", "ip_1_anon", "ip_2_anon"] ∧
    processRow (fun _ _ => 0) (FieldConfig.mk "id_orig_h" "id_resp_h" "ip_1_anon" "ip_2_anon")
      [ "id_orig_h", "id_resp_h"]
      [( "id_orig_h", "192.168.1.1"), ( "id_resp_h", "192.168.1.2")] = none := by
  refine ⟨?_, by decide⟩
  intro h
  exact absurd (congrArg List.length h) (by decide)

/-- C4 as amended: the output header always equals the input header (no
target names are appended), and when a configured target field is
missing from the header any record whose first source field is non-empty
fails to write — target fields must already be present in the input
header for the run to proceed. -/
theorem claim_C4_amended :
    (∀ header : List String, outputHeader header = header) ∧
    (∀ (f : Nat → Nat → Int) (cfg : FieldConfig) (fieldnames : List String)
      (row : List (String × String)) (v1 : String),
      ¬ cfg.anonymizedfield_1 ∈ fieldnames →
      row.lookup cfg.ip1field = some v1 → v1 ≠ "" →
      processRow f cfg fieldnames row = none) := by
  refine ⟨fun _ => rfl, ?_⟩
  intro f cfg fieldnames row v1 hmem hl hv
  cases hpr : processRow f cfg fieldnames row with
  | none => rfl
  | some out =>
    exfalso
    obtain ⟨v1x, row1, v2, row2, hl1, hp1, hl2, hp2, hw⟩ := processRow_structure hpr
    rw [hl] at hl1
    injection hl1 with hl1
    subst hl1
    rcases hp1 with ⟨_, a1, _, e1⟩ | ⟨e, _⟩
    · have hmem1 : (cfg.anonymizedfield_1, a1) ∈ row1 := by
        rw [e1]
        exact dictSet_mem_self _ _ _
      have hmem2 : ∃ w, (cfg.anonymizedfield_1, w) ∈ row2 := by
        rcases hp2 with ⟨_, a2, _, e2⟩ | ⟨_, e2⟩
        · subst e2
          by_cases haa : cfg.anonymizedfield_1 = cfg.anonymizedfield_2
          · refine ⟨a2, ?_⟩
            rw [haa]
            exact dictSet_mem_self _ _ _
          · exact ⟨a1, dictSet_mem_of_ne hmem1 haa⟩
        · exact ⟨a1, e2 ▸ hmem1⟩
      obtain ⟨w, hmemw⟩ := hmem2
      rw [writerow_none hmemw hmem] at hw
      exact absurd hw (by simp)
    · exact hv e

/-- Witness for the amended C4. -/
theorem claim_C4_amended_witness :
    outputHeader [ "id_orig_h", "id_resp_h"] = [ "id_orig_h", "id_resp_h"] ∧
    processRow (fun _ _ => 0) (FieldConfig.mk "id_orig_h" "id_resp_h" "ip_1_anon" "ip_2_anon")
      [ "id_orig_h", "id_resp_h"]
      [( "id_orig_h", "192.168.1.1"), ( "id_resp_h", "")] = none :=
  ⟨claim_C4_amended.1 _,
   claim_C4_amended.2 _ _ _ _ "192.168.1.1" (by decide) (by decide) (by decide)⟩

/-- C7: the transformer never removes or reorders input fields: a
successfully processed record yields one output cell per header field,
in header order, and every field other than the two configured target
fields carries its input value unchanged. -/
theorem claim_C7_field_preservation (f : Nat → Nat → Int) (cfg : FieldConfig)
    (fieldnames : List String) (row : List (String × String)) (out : List String)
    (h : processRow f cfg fieldnames row = some out) :
    out.length = fieldnames.length ∧
    ∀ (i : Nat) (fld v : String), fieldnames[i]? = some fld →
      fld ≠ cfg.anonymizedfield_1 → fld ≠ cfg.anonymizedfield_2 →
      row.lookup fld = some v → out[i]? = some v := by
  obtain ⟨v1, row1, v2, row2, hl1, hp1, hl2, hp2, hw⟩ := processRow_structure h
  have hout := writerow_some hw
  constructor
  · rw [hout, List.length_map]
  · intro i fld v hfld hne1 hne2 hv
    have s1 : row1.lookup fld = row.lookup fld := by
      rcases hp1 with ⟨_, a1, _, e⟩ | ⟨_, e⟩
      · rw [e, dictSet_lookup_ne _ _ _ hne1]
      · rw [e]
    have s2 : row2.lookup fld = row1.lookup fld := by
      rcases hp2 with ⟨_, a2, _, e⟩ | ⟨_, e⟩
      · rw [e, dictSet_lookup_ne _ _ _ hne2]
      · rw [e]
    rw [hout, List.getElem?_map, hfld, Option.map_some', s2, s1, hv]
    rfl

/-- Witness for C7: a record whose second source field is empty keeps
its input cells at all non-target positions. -/
theorem claim_C7_witness :
    processRow (fun _ _ => (0 : Int)) (FieldConfig.mk "id_orig_h" "id_resp_h" "ip_1_anon" "ip_2_anon")
      [ "id_orig_h", "id_resp_h", "ip_1_anon", "ip_2_anon"]
      [( "id_orig_h", "1.2.3.4"), ( "id_resp_h", ""), ( "ip_1_anon", ""), ( "ip_2_anon", "")]
      = some [ "1.2.3.4", "", "0.0.0.0", ""] ∧
    ([ "1.2.3.4", "", "0.0.0.0", ""] : List String)[1]? = some "" := by
  have h : processRow (fun _ _ => (0 : Int))
      (FieldConfig.mk "id_orig_h" "id_resp_h" "ip_1_anon" "ip_2_anon")
      [ "id_orig_h", "id_resp_h", "ip_1_anon", "ip_2_anon"]
      [( "id_orig_h", "1.2.3.4"), ( "id_resp_h", ""), ( "ip_1_anon", ""), ( "ip_2_anon", "")]
      = some [ "1.2.3.4", "", "0.0.0.0", ""] := by decide
  exact ⟨h, (claim_C7_field_preservation _ _ _ _ _ h).2 1 "id_resp_h" ""
    (by decide) (by decide) (by decide) (by decide)⟩

/-- C8: for each of the two field mappings of a successfully processed
record (with the first target field distinct from the second source and
target fields, as the two slots are independent): a non-empty source
value puts its anonymized encoding at the target field's positions, and
an empty source value leaves the target cells exactly as they were read
from the input record. -/
theorem claim_C8_mappings (f : Nat → Nat → Int) (cfg : FieldConfig)
    (fieldnames : List String) (row : List (String × String)) (out : List String)
    (hne_a1_ip2 : cfg.anonymizedfield_1 ≠ cfg.ip2field)
    (hne_a1_a2 : cfg.anonymizedfield_1 ≠ cfg.anonymizedfield_2)
    (h : processRow f cfg fieldnames row = some out) :
    (∀ v1, row.lookup cfg.ip1field = some v1 → v1 ≠ "" →
      ∃ a1, anonymize_ipv4 f v1 = some a1 ∧
        ∀ i : Nat, fieldnames[i]? = some cfg.anonymizedfield_1 → out[i]? = some a1) ∧
    (row.lookup cfg.ip1field = some "" →
      ∀ i : Nat, fieldnames[i]? = some cfg.anonymizedfield_1 →
        out[i]? = some ((row.lookup cfg.anonymizedfield_1).getD "")) ∧
    (∀ v2, row.lookup cfg.ip2field = some v2 → v2 ≠ "" →
      ∃ a2, anonymize_ipv4 f v2 = some a2 ∧
        ∀ i : Nat, fieldnames[i]? = some cfg.anonymizedfield_2 → out[i]? = some a2) ∧
    (row.lookup cfg.ip2field = some "" →
      ∀ i : Nat, fieldnames[i]? = some cfg.anonymizedfield_2 →
        out[i]? = some ((row.lookup cfg.anonymizedfield_2).getD "")) := by
  obtain ⟨v1, row1, v2, row2, hl1, hp1, hl2, hp2, hw⟩ := processRow_structure h
  have hout := writerow_some hw
  have hcell : ∀ (i : Nat) (k : String),
      fieldnames[i]? = some k → out[i]? = some ((row2.lookup k).getD "") := by
    intro i k hk
    rw [hout, List.getElem?_map, hk, Option.map_some']
  have hlook12 : row1.lookup cfg.ip2field = row.lookup cfg.ip2field := by
    rcases hp1 with ⟨_, a1, _, e⟩ | ⟨_, e⟩
    · rw [e, dictSet_lookup_ne _ _ _ (fun e2 => hne_a1_ip2 e2.symm)]
    · rw [e]
  have h21 : row2.lookup cfg.anonymizedfield_1 = row1.lookup cfg.anonymizedfield_1 := by
    rcases hp2 with ⟨_, a2, _, e⟩ | ⟨_, e⟩
    · rw [e, dictSet_lookup_ne _ _ _ hne_a1_a2]
    · rw [e]
  refine ⟨?_, ?_, ?_, ?_⟩
  · intro w hw1 hwne
    rw [hl1] at hw1
    injection hw1 with hw1
    subst hw1
    rcases hp1 with ⟨_, a1, ha1, e1⟩ | ⟨e, _⟩
    · refine ⟨a1, ha1, fun i hi => ?_⟩
      rw [hcell i _ hi, h21, e1, dictSet_lookup_self]
      rfl
    · exact absurd e hwne
  · intro hempty i hi
    rw [hl1] at hempty
    injection hempty with hempty
    rcases hp1 with ⟨hne, _, _, _⟩ | ⟨_, e1⟩
    · exact absurd hempty hne
    · rw [hcell i _ hi, h21, e1]
  · intro w hw2 hwne
    rw [hlook12, hw2] at hl2
    injection hl2 with hl2
    subst hl2
    rcases hp2 with ⟨_, a2, ha2, e2⟩ | ⟨e, _⟩
    · refine ⟨a2, ha2, fun i hi => ?_⟩
      rw [hcell i _ hi, e2, dictSet_lookup_self]
      rfl
    · exact absurd e hwne
  · intro hempty i hi
    rw [hlook12, hempty] at hl2
    injection hl2 with hl2
    rcases hp2 with ⟨hne, _, _, _⟩ | ⟨_, e2⟩
    · exact absurd hl2.symm hne
    · rw [hcell i _ hi, e2]
      have h1a2 : row1.lookup cfg.anonymizedfield_2 = row.lookup cfg.anonymizedfield_2 := by
        rcases hp1 with ⟨_, a1, _, e⟩ | ⟨_, e⟩
        · rw [e, dictSet_lookup_ne _ _ _ (fun e2 => hne_a1_a2 e2.symm)]
        · rw [e]
      rw [h1a2]

/-- Witness for C8: both mappings fire on a fully populated record. -/
theorem claim_C8_witness :
    processRow (fun _ _ => (0 : Int)) (FieldConfig.mk "id_orig_h" "id_resp_h" "ip_1_anon" "ip_2_anon")
      [ "id_orig_h", "id_resp_h", "ip_1_anon", "ip_2_anon"]
      [( "id_orig_h", "1.2.3.4"), ( "id_resp_h", "5.6.7.8"), ( "ip_1_anon", ""), ( "ip_2_anon", "")]
      = some [ "1.2.3.4", "5.6.7.8", "0.0.0.0", "0.0.0.0"] ∧
    ([ "1.2.3.4", "5.6.7.8", "0.0.0.0", "0.0.0.0"] : List String)[2]? = some "0.0.0.0" := by
  have h : processRow (fun _ _ => (0 : Int))
      (FieldConfig.mk "id_orig_h" "id_resp_h" "ip_1_anon" "ip_2_anon")
      [ "id_orig_h", "id_resp_h", "ip_1_anon", "ip_2_anon"]
      [( "id_orig_h", "1.2.3.4"), ( "id_resp_h", "5.6.7.8"), ( "ip_1_anon", ""), ( "ip_2_anon", "")]
      = some [ "1.2.3.4", "5.6.7.8", "0.0.0.0", "0.0.0.0"] := by decide
  refine ⟨h, ?_⟩
  obtain ⟨a1, ha1, hcell⟩ := (claim_C8_mappings _ _ _ _ _ (by decide) (by decide) h).1
    "1.2.3.4" (by decide) (by decide)
  have hc := hcell 2 (by decide)
  have h2 : anonymize_ipv4 (fun _ _ => (0 : Int)) "1.2.3.4" = some "0.0.0.0" := by decide
  have ha1v : a1 = "0.0.0.0" := Option.some.inj (ha1.symm.trans h2)
  rw [ha1v] at hc
  exact hc

/-- C9: invoked with any number of positional arguments other than six,
the program exits with status code 1 having read no input lines and made
no external calls. -/
theorem claim_C9_usage (lib : ExternalLib) (prog : String) (args : List String)
    (input : List (List String)) (h : args.length ≠ 6) :
    mainModel lib (prog :: args) input = (MainResult.earlyExit 1 0, []) := by
  unfold mainModel
  rw [if_pos]
  simp only [List.length_cons]
  omega

/-- Witness for C9: five arguments exit early. -/
theorem claim_C9_witness :
    ([ "key", "lib.so", "id_orig_h", "id_resp_h", "ip_1_anon"] : List String).length ≠ 6 ∧
    mainModel ⟨true, fun _ _ _ => 0, fun _ _ => 0⟩
      ( "ip_anonymize.py" :: [ "key", "lib.so", "id_orig_h", "id_resp_h", "ip_1_anon"]) []
      = (MainResult.earlyExit 1 0, []) :=
  ⟨by decide, claim_C9_usage _ _ _ _ (by decide)⟩

/-- C10: on every run that passes the argument check and loads the
library, exactly one call is made to the external initialization entry
point, with the algorithm identifier fixed to Blowfish (`0x02`) passed
twice no matter what the command line said — even though four algorithm
identifiers are defined, the algorithm is not selectable. -/
theorem claim_C10_algo_fixed (lib : ExternalLib) (argv : List String)
    (input : List (List String)) (h7 : argv.length = 7) (hload : lib.load_ok = true) :
    (mainModel lib argv input).2
        = [(argv.getD 1 "", ScrambleAlgo.SCRAMBLE_BLOWFISH, ScrambleAlgo.SCRAMBLE_BLOWFISH)] ∧
    ScrambleAlgo.SCRAMBLE_BLOWFISH = 0x02 ∧ ScrambleAlgo.SCRAMBLE_MD5 = 0x01 ∧
    ScrambleAlgo.SCRAMBLE_AES = 0x03 ∧ ScrambleAlgo.SCRAMBLE_SHA1 = 0x04 := by
  refine ⟨?_, rfl, rfl, rfl, rfl⟩
  unfold mainModel
  rw [if_neg (by omega)]
  rw [hload]
  simp only [Bool.not_true, Bool.false_eq_true, if_false]
  split
  · rfl
  · split <;> rfl

/-- Witness for C10. -/
theorem claim_C10_witness :
    ([ "ip_anonymize.py", "key", "lib.so", "a", "b", "c", "d"] : List String).length = 7 ∧
    (mainModel ⟨true, fun _ _ _ => 0, fun _ _ => 0⟩
        [ "ip_anonymize.py", "key", "lib.so", "a", "b", "c", "d"] []).2
      = [(([ "ip_anonymize.py", "key", "lib.so", "a", "b", "c", "d"] : List String).getD 1 "",
          ScrambleAlgo.SCRAMBLE_BLOWFISH, ScrambleAlgo.SCRAMBLE_BLOWFISH)] :=
  ⟨by decide, (claim_C10_algo_fixed _ _ _ (by decide) rfl).1⟩
end IpAnon
